import Mathlib

/-
Verification of the GP4U Provider Reliability & Aggregation Layer and the
frontend marketplace components.  Pure functions from the JavaScript source
(src/App.jsx, src/src/components/SmartGPUFinder.jsx) are embedded directly;
backend components that the repository only documents (circuit breaker, rate
limiter, adaptive cache, retry controller, aggregator) are modelled from the
specification text, as indicated on each definition.
-/

namespace GP4U

/-- JavaScript Math.round on a rational: round half up, i.e. the floor of
q + 1/2. -/
def jsRound (q : ℚ) : ℤ := ⌊q + 1/2⌋

/-- JavaScript Number.prototype.toFixed(1) on a nonnegative rational,
represented by the integer number of tenths: round q * 10 to the nearest
integer, ties upward. -/
def toFixedTenths (q : ℚ) : ℤ := jsRound (q * 10)

/-- Character-level lowercase, modelling String.prototype.toLowerCase. -/
def lowerChars (s : List Char) : List Char := s.map Char.toLower

/-- Does the first character list start with the second one? -/
def startsWithChars : List Char → List Char → Bool
  | _, [] => true
  | [], _ :: _ => false
  | c :: cs, d :: ds => c == d && startsWithChars cs ds

/-- Does the first character list contain the second as a contiguous run?
Models String.prototype.includes. -/
def includesChars : List Char → List Char → Bool
  | [], q => q.isEmpty
  | c :: cs, q => startsWithChars (c :: cs) q || includesChars cs q

/-- s.toLowerCase().includes(q.toLowerCase()), as used by the SmartGPUFinder
search filter. -/
def jsIncludes (s q : String) : Bool :=
  includesChars (lowerChars s.data) (lowerChars q.data)

/-- One step of a stable comparator sort: place x before the first element y
with cmp x y ≤ 0, as a stable JavaScript Array.prototype.sort would. -/
def jsInsert (cmp : α → α → ℚ) (x : α) : List α → List α
  | [] => [x]
  | y :: ys => if cmp x y ≤ 0 then x :: y :: ys else y :: jsInsert cmp x ys

/-- Stable comparator sort modelling JavaScript Array.prototype.sort with a
consistent comparator: sorted with respect to cmp a b ≤ 0 and stable. -/
def jsSort (cmp : α → α → ℚ) : List α → List α
  | [] => []
  | x :: xs => jsInsert cmp x (jsSort cmp xs)

/-! ### Adaptive cache (modelled from the spec) -/

/-- Cache configuration: base, minimum and maximum TTL in seconds
(defaults 30 / 10 / 300). -/
structure CacheCfg where
  baseTtl : ℚ
  minTtl : ℚ
  maxTtl : ℚ

/-- The default cache configuration CACHE_TTL=30, CACHE_MIN_TTL=10,
CACHE_MAX_TTL=300. -/
def defaultCacheCfg : CacheCfg := ⟨30, 10, 300⟩

/-- Modelled from the spec: the adaptive cache's set(source, payload) TTL
computation, missing from src/ (only documented in SETUP.md and the spec):
rolling success rate ≥ 0.90 gives max_ttl, 0.70 ≤ rate < 0.90 gives 45s,
0.50 ≤ rate < 0.70 gives 30s, rate < 0.50 gives min_ttl; lower tier
boundaries inclusive. -/
def computeTtl (cfg : CacheCfg) (rate : ℚ) : ℚ :=
  if 9/10 ≤ rate then cfg.maxTtl
  else if 7/10 ≤ rate then 45
  else if 1/2 ≤ rate then 30
  else cfg.minTtl

/-- A cache entry: payload identifier, insertion time, ttl, stale flag.  The
payload itself is irrelevant to invalidation, so it is abstracted to an
index. -/
structure CacheEntry where
  payloadId : ℕ
  insertedAt : ℚ
  ttl : ℚ
  stale : Bool
deriving DecidableEq

/-- A per-source cache, as an association list from source name to entry. -/
def Cache := List (String × CacheEntry)

/-- Modelled from the spec: invalidate(source) clears the entry for that
source (implementation missing from src/). -/
def invalidate (c : Cache) (source : String) : Cache :=
  c.filter fun e => e.1 != source

/-- Cache lookup by source name. -/
def lookupEntry (c : Cache) (source : String) : Option CacheEntry :=
  (c.find? fun e => e.1 == source).map Prod.snd

/-! ### Circuit breaker (modelled from the spec) -/

/-- The three circuit breaker states. -/
inductive BreakerState where
  | CLOSED
  | OPEN
  | HALF_OPEN
deriving DecidableEq

/-- Circuit breaker configuration: failure threshold (default 5), recovery
timeout in seconds (default 60), consecutive successes required to close from
half-open (default 3). -/
structure BreakerCfg where
  threshold : ℕ
  recoveryTimeout : ℚ
  halfOpenMaxCalls : ℕ

/-- Default circuit breaker configuration. -/
def defaultBreakerCfg : BreakerCfg := ⟨5, 60, 3⟩

/-- Per-source circuit breaker state record. -/
structure Breaker where
  state : BreakerState
  consecutiveFailures : ℕ
  halfOpenSuccesses : ℕ
  lastTransitionTime : ℚ
  tripCount : ℕ
deriving DecidableEq

/-- A rejected call while the breaker is open, carrying retry_after. -/
structure CircuitOpenErr where
  retryAfter : ℚ
deriving DecidableEq

/-- Modelled from the spec: breaker.check() before a call, missing from src/.
CLOSED and HALF_OPEN let the call through; OPEN rejects with retry_after =
recovery_timeout − elapsed unless the timeout has elapsed, in which case the
breaker transitions to HALF_OPEN and lets the call through. -/
def Breaker.check (cfg : BreakerCfg) (b : Breaker) (now : ℚ) :
    Except CircuitOpenErr Breaker :=
  match b.state with
  | .CLOSED => .ok b
  | .HALF_OPEN => .ok b
  | .OPEN =>
    if cfg.recoveryTimeout ≤ now - b.lastTransitionTime then
      .ok { b with state := .HALF_OPEN, halfOpenSuccesses := 0,
                   lastTransitionTime := now }
    else
      .error ⟨cfg.recoveryTimeout - (now - b.lastTransitionTime)⟩

/-- Modelled from the spec: outcome reporting of a successful call, missing
from src/.  In CLOSED, reset consecutive_failures; in HALF_OPEN, count the
success and close after half_open_max_calls of them. -/
def Breaker.onSuccess (cfg : BreakerCfg) (b : Breaker) (now : ℚ) : Breaker :=
  match b.state with
  | .CLOSED => { b with consecutiveFailures := 0 }
  | .HALF_OPEN =>
    if cfg.halfOpenMaxCalls ≤ b.halfOpenSuccesses + 1 then
      { b with state := .CLOSED, consecutiveFailures := 0,
               halfOpenSuccesses := 0, lastTransitionTime := now }
    else
      { b with halfOpenSuccesses := b.halfOpenSuccesses + 1 }
  | .OPEN => b

/-- Modelled from the spec: outcome reporting of a failed call, missing from
src/.  In CLOSED, count the failure and trip to OPEN when the count reaches
the threshold; in HALF_OPEN, reopen immediately and restart the recovery
timer. -/
def Breaker.onFailure (cfg : BreakerCfg) (b : Breaker) (now : ℚ) : Breaker :=
  match b.state with
  | .CLOSED =>
    if cfg.threshold ≤ b.consecutiveFailures + 1 then
      { b with state := .OPEN, consecutiveFailures := b.consecutiveFailures + 1,
               tripCount := b.tripCount + 1, lastTransitionTime := now }
    else
      { b with consecutiveFailures := b.consecutiveFailures + 1 }
  | .HALF_OPEN =>
    { b with state := .OPEN, halfOpenSuccesses := 0, lastTransitionTime := now }
  | .OPEN => b

/-! ### Rate limiter (token bucket, modelled from the spec) -/

/-- Token bucket configuration: burst capacity and refill rate in tokens per
second. -/
structure BucketCfg where
  capacity : ℚ
  refillRate : ℚ

/-- Per-source token bucket state. -/
structure Bucket where
  availableTokens : ℚ
  lastRefillTime : ℚ
deriving DecidableEq

/-- Modelled from the spec: the refill step of acquire, missing from src/:
available = min(capacity, available + elapsed × refill_rate). -/
def Bucket.refill (cfg : BucketCfg) (b : Bucket) (now : ℚ) : Bucket :=
  ⟨min cfg.capacity (b.availableTokens + (now - b.lastRefillTime) * cfg.refillRate),
   now⟩

/-- Result of an acquire call: either the tokens were taken, or the caller
would have to wait the given number of seconds. -/
inductive AcquireResult where
  | acquired (b : Bucket)
  | wouldBlock (wait : ℚ) (b : Bucket)
deriving DecidableEq

/-- The bucket state after an acquire call, whichever way it went. -/
def AcquireResult.bucket : AcquireResult → Bucket
  | .acquired b => b
  | .wouldBlock _ b => b

/-- Did the acquire succeed immediately? -/
def AcquireResult.isOk : AcquireResult → Bool
  | .acquired _ => true
  | .wouldBlock _ _ => false

/-- Modelled from the spec: acquire(n), missing from src/: refill, then if
available ≥ n subtract and return immediately, else report the wait
(n − available) / refill_rate. -/
def Bucket.acquire (cfg : BucketCfg) (b : Bucket) (now : ℚ) (n : ℚ) :
    AcquireResult :=
  let b2 := b.refill cfg now
  if n ≤ b2.availableTokens then
    .acquired ⟨b2.availableTokens - n, now⟩
  else
    .wouldBlock ((n - b2.availableTokens) / cfg.refillRate) b2

/-- Run a sequence of acquire operations, each a (time, token count) pair,
threading the bucket state through. -/
def runAcquires (cfg : BucketCfg) (b : Bucket) : List (ℚ × ℚ) → Bucket
  | [] => b
  | (now, n) :: ops => runAcquires cfg ((b.acquire cfg now n).bucket) ops

/-- Did every acquire in the sequence succeed immediately? -/
def allAcquired (cfg : BucketCfg) (b : Bucket) : List (ℚ × ℚ) → Bool
  | [] => true
  | (now, n) :: ops =>
    (b.acquire cfg now n).isOk && allAcquired cfg ((b.acquire cfg now n).bucket) ops

/-- A well-formed operation sequence starting no earlier than the given time:
times are non-decreasing and every token request is nonnegative. -/
inductive ValidOps : ℚ → List (ℚ × ℚ) → Prop
  | nil (t : ℚ) : ValidOps t []
  | cons {t now n : ℚ} {ops : List (ℚ × ℚ)} :
      t ≤ now → 0 ≤ n → ValidOps now ops → ValidOps t ((now, n) :: ops)

/-! ### Retry controller (modelled from the spec) -/

/-- Retry controller configuration: maximum retries (default 3), base delay
2s, maximum delay 32s, jitter bound 1s. -/
structure RetryCfg where
  maxRetries : ℕ
  baseDelay : ℚ
  maxDelay : ℚ
  jitterMax : ℚ

/-- Default retry configuration. -/
def defaultRetryCfg : RetryCfg := ⟨3, 2, 32, 1⟩

/-- Modelled from the spec: the backoff delay before retry number attempt,
missing from src/: min(base_delay × 2^attempt, max_delay) + jitter, the
jitter drawn uniformly from [0, jitter_max]. -/
def retryDelay (cfg : RetryCfg) (attempt : ℕ) (jitter : ℚ) : ℚ :=
  min (cfg.baseDelay * 2 ^ attempt) cfg.maxDelay + jitter

/-- The errors a single attempt can produce. -/
inductive SourceError where
  | transientNetwork
  | upstreamAuth
  | upstreamRateLimited
  | circuitOpen (retryAfter : ℚ)
deriving DecidableEq

/-- The outcome of one underlying attempt: success with a payload index, or
an error together with whether the breaker just tripped on it. -/
inductive AttemptOutcome where
  | ok (payload : ℕ)
  | err (e : SourceError) (tripped : Bool)
deriving DecidableEq

/-- Modelled from the spec: the retry loop of the Retry Controller, missing
from src/.  Attempt number k runs; on success it returns; on failure it
stops at once when the breaker just tripped, and otherwise retries while
retries remain, surfacing the final error when they are exhausted. -/
def runRetry (att : ℕ → AttemptOutcome) : ℕ → ℕ → Except SourceError ℕ
  | k, remaining =>
    match att k with
    | .ok v => .ok v
    | .err e tripped =>
      if tripped then .error e
      else
        match remaining with
        | 0 => .error e
        | r + 1 => runRetry att (k + 1) r

/-- Modelled from the spec: one Retry-Controller-wrapped fetch as issued by a
Source Adapter: a single invocation of the retry loop starting at attempt 0
with max_retries retries; the adapter itself performs no further retry. -/
def adapterFetch (cfg : RetryCfg) (att : ℕ → AttemptOutcome) :
    Except SourceError ℕ :=
  runRetry att 0 cfg.maxRetries

/-! ### Normalized listings and the aggregator (modelled from the spec) -/

/-- A normalized listing: source name, model identifier, capacity attribute,
unit price, location, raw reliability signal, and the derived score. -/
structure NormalizedListing where
  source : String
  model : String
  capacity : ℚ
  price : ℚ
  location : String
  reliability : ℚ
  score : ℚ
deriving DecidableEq

/-- Modelled from the spec: the merge comparator of the canonical sorted
collection, missing from src/: descending score, ties broken by lowest price
and then by source name. -/
def cmpListing (a b : NormalizedListing) : ℚ :=
  if a.score ≠ b.score then b.score - a.score
  else if a.price ≠ b.price then a.price - b.price
  else if a.source < b.source then -1
  else if b.source < a.source then 1
  else 0

/-- The canonical merge order: higher score first, ties broken by lower unit
price, then by source name. -/
def ListingLE (a b : NormalizedListing) : Prop :=
  b.score < a.score ∨
    (a.score = b.score ∧
      (a.price < b.price ∨ (a.price = b.price ∧ a.source ≤ b.source)))

/-- Modelled from the spec: the merge of all successfully normalized listing
sets into one canonical sorted collection, missing from src/. -/
def mergeListings (l : List NormalizedListing) : List NormalizedListing :=
  jsSort cmpListing l

/-- Aggregator-internal misconfiguration errors. -/
inductive AggError where
  | noSourcesRegistered
deriving DecidableEq

/-- The summary returned by syncAll. -/
structure SyncSummary where
  sourcesSucceeded : ℕ
  sourcesFailed : ℕ
  outcomes : List (String × Bool)
  listings : List NormalizedListing
  totalListings : ℕ
deriving DecidableEq

/-- The normalized records of the adapters that succeeded, in registration
order. -/
def successListings
    (adapters : List (String × Except SourceError (List NormalizedListing))) :
    List NormalizedListing :=
  (adapters.filterMap fun p => p.2.toOption).flatten

/-- Modelled from the spec: Aggregator.syncAll(), missing from src/.  Each
adapter's outcome is recorded independently; it raises only when no sources
are registered, and otherwise returns the success and failure counts, the
per-source outcomes and the merged canonical collection. -/
def syncAll
    (adapters : List (String × Except SourceError (List NormalizedListing))) :
    Except AggError SyncSummary :=
  if adapters.isEmpty then .error .noSourcesRegistered
  else
    let merged := mergeListings (successListings adapters)
    .ok
      { sourcesSucceeded := (adapters.filter fun p => p.2.toBool).length
        sourcesFailed := (adapters.filter fun p => !p.2.toBool).length
        outcomes := adapters.map fun p => (p.1, p.2.toBool)
        listings := merged
        totalListings := merged.length }

/-! ### Frontend marketplace data loader (embedded from src/App.jsx) -/

/-- A raw backend GPU record as served by /api/gpus and consumed by
loadBackendData in src/App.jsx. -/
structure BackendGPU where
  id : ℕ
  gpu_model : String
  provider : String
  total_price : ℚ
  availability : String
  vram_gb : ℚ
  uptime_percent : ℚ
  location : String
deriving DecidableEq

/-- A transformed marketplace GPU object as built by loadBackendData.  The
vram display string is kept as the numeric value it renders, and providerScore
as the tenths integer that its one-decimal string displays. -/
structure MarketGPU where
  id : ℕ
  name : String
  provider : String
  price : ℚ
  available : ℕ
  vram : ℚ
  performance : ℤ
  bestDeal : Bool
  providerScore : ℤ
  favorites : ℕ
  priceHistory : List ℚ
  location : String
  uptime : ℚ
deriving DecidableEq

/-- The per-record transformation inside loadBackendData (src/App.jsx,
lines 99-119).  The favorites field is Math.floor(Math.random() * 2000) in the
source; the random draw is passed in explicitly as fav. -/
def transformGPU (g : BackendGPU) (fav : ℕ) : MarketGPU :=
  { id := g.id
    name := g.gpu_model
    provider := g.provider
    price := g.total_price
    available := 1
    vram := g.vram_gb
    performance := jsRound g.uptime_percent
    bestDeal := false
    providerScore := toFixedTenths (g.uptime_percent / 20)
    favorites := fav
    priceHistory :=
      [g.total_price * (11/10), g.total_price * (21/20), g.total_price * (51/50),
       g.total_price * (101/100), g.total_price]
    location := g.location
    uptime := g.uptime_percent }

/-- Map the transformation over a record list, drawing one random favorites
value per position from the stream rand. -/
def mapTransform (rand : ℕ → ℕ) (i : ℕ) : List BackendGPU → List MarketGPU
  | [] => []
  | g :: gs => transformGPU g (rand i) :: mapTransform rand (i + 1) gs

/-- The availableGPUs list built by loadBackendData (src/App.jsx, lines
97-119): filter records whose availability field is the string Available,
then transform each. -/
def availableGPUs (rand : ℕ → ℕ) (gs : List BackendGPU) : List MarketGPU :=
  mapTransform rand 0 (gs.filter fun g => g.availability == "Available")

/-! ### SmartGPUFinder (embedded from src/src/components/SmartGPUFinder.jsx) -/

/-- A GPU object as received by the SmartGPUFinder component through its gpus
prop.  price_per_hour is modelled by the rational that parseFloat yields on
it. -/
structure FinderGPU where
  id : ℕ
  model : String
  provider : String
  price_per_hour : ℚ
  vram_gb : ℚ
  available : Bool
deriving DecidableEq

/-- filteredGPUs (SmartGPUFinder.jsx, lines 50-55): when the search query is
nonempty, keep the GPUs whose model or provider contains it
case-insensitively; an empty query is falsy and keeps the list as is. -/
def filteredGPUs (gpus : List FinderGPU) (searchQuery : String) :
    List FinderGPU :=
  if searchQuery = "" then gpus
  else gpus.filter fun gpu =>
    jsIncludes gpu.model searchQuery || jsIncludes gpu.provider searchQuery

/-- The sort comparator of sortedGPUs (SmartGPUFinder.jsx, lines 57-62),
keyed by the sortBy state string; any other value returns 0. -/
def finderCmp (sortBy : String) (a b : FinderGPU) : ℚ :=
  if sortBy = "price-low" then a.price_per_hour - b.price_per_hour
  else if sortBy = "price-high" then b.price_per_hour - a.price_per_hour
  else if sortBy = "vram" then b.vram_gb - a.vram_gb
  else 0

/-- sortedGPUs (SmartGPUFinder.jsx, lines 57-62): sort a spread copy of the
filtered list with the comparator. -/
def sortedGPUs (gpus : List FinderGPU) (searchQuery sortBy : String) :
    List FinderGPU :=
  jsSort (finderCmp sortBy) (filteredGPUs gpus searchQuery)

/-- One render of the GPU list: the displayed list, paired with the gpus prop
as the component leaves it.  The source sorts the spread copy
of filteredGPUs, never the prop, so the prop comes back unchanged. -/
def renderFinder (gpus : List FinderGPU) (searchQuery sortBy : String) :
    List FinderGPU × List FinderGPU :=
  (sortedGPUs gpus searchQuery sortBy, gpus)

/-! ### Generic facts about the stable comparator sort -/

theorem jsInsert_perm (cmp : α → α → ℚ) (x : α) (l : List α) :
    (jsInsert cmp x l).Perm (x :: l) := by
  induction l with
  | nil => simp [jsInsert]
  | cons y ys ih =>
    by_cases h : cmp x y ≤ 0
    · simp [jsInsert, h]
    · simp only [jsInsert, if_neg h]
      exact (ih.cons y).trans (List.Perm.swap x y ys)

theorem jsSort_perm (cmp : α → α → ℚ) (l : List α) : (jsSort cmp l).Perm l := by
  induction l with
  | nil => exact List.Perm.refl []
  | cons x xs ih =>
    exact (jsInsert_perm cmp x (jsSort cmp xs)).trans (ih.cons x)

theorem jsInsert_pairwise (cmp : α → α → ℚ)
    (htot : ∀ a b, cmp a b ≤ 0 ∨ cmp b a ≤ 0)
    (htr : ∀ a b c, cmp a b ≤ 0 → cmp b c ≤ 0 → cmp a c ≤ 0)
    (x : α) (l : List α) (hl : l.Pairwise fun a b => cmp a b ≤ 0) :
    (jsInsert cmp x l).Pairwise fun a b => cmp a b ≤ 0 := by
  induction l with
  | nil => simp [jsInsert]
  | cons y ys ih =>
    rcases List.pairwise_cons.mp hl with ⟨hy, hys⟩
    by_cases h : cmp x y ≤ 0
    · simp only [jsInsert, if_pos h]
      refine List.pairwise_cons.mpr ⟨?_, hl⟩
      intro z hz
      rcases List.mem_cons.mp hz with rfl | hz2
      · exact h
      · exact htr x y z h (hy z hz2)
    · simp only [jsInsert, if_neg h]
      refine List.pairwise_cons.mpr ⟨?_, ih hys⟩
      intro z hz
      have hz2 : z ∈ x :: ys := (jsInsert_perm cmp x ys).mem_iff.mp hz
      rcases List.mem_cons.mp hz2 with rfl | hz3
      · exact (htot z y).resolve_left h
      · exact hy z hz3

theorem jsSort_pairwise (cmp : α → α → ℚ)
    (htot : ∀ a b, cmp a b ≤ 0 ∨ cmp b a ≤ 0)
    (htr : ∀ a b c, cmp a b ≤ 0 → cmp b c ≤ 0 → cmp a c ≤ 0)
    (l : List α) : (jsSort cmp l).Pairwise fun a b => cmp a b ≤ 0 := by
  induction l with
  | nil => simp [jsSort]
  | cons x xs ih => exact jsInsert_pairwise cmp htot htr x (jsSort cmp xs) ih

theorem jsInsert_all_le (cmp : α → α → ℚ) (hall : ∀ a b, cmp a b ≤ 0)
    (x : α) (l : List α) : jsInsert cmp x l = x :: l := by
  cases l with
  | nil => rfl
  | cons y ys => simp [jsInsert, hall x y]

theorem jsSort_all_le (cmp : α → α → ℚ) (hall : ∀ a b, cmp a b ≤ 0)
    (l : List α) : jsSort cmp l = l := by
  induction l with
  | nil => rfl
  | cons x xs ih => rw [jsSort, ih, jsInsert_all_le cmp hall]

theorem sorted_perm_unique {α : Type} {R : α → α → Prop} :
    ∀ (l1 l2 : List α),
      (∀ a ∈ l1, ∀ b ∈ l1, R a b → R b a → a = b) →
      l1.Pairwise R → l2.Pairwise R → l1.Perm l2 → l1 = l2 := by
  intro l1
  induction l1 with
  | nil =>
    intro l2 _ _ _ hp
    exact (hp.symm.eq_nil).symm
  | cons a t1 ih =>
    intro l2 hanti h1 h2 hp
    cases l2 with
    | nil => exact absurd hp.eq_nil (List.cons_ne_nil a t1)
    | cons b t2 =>
      have hab : a = b := by
        by_contra hne
        have ha2 : a ∈ b :: t2 := hp.mem_iff.mp (List.mem_cons_self a t1)
        have hb1 : b ∈ a :: t1 := hp.mem_iff.mpr (List.mem_cons_self b t2)
        have hat2 : a ∈ t2 := by
          rcases List.mem_cons.mp ha2 with h | h
          · exact absurd h hne
          · exact h
        have hbt1 : b ∈ t1 := by
          rcases List.mem_cons.mp hb1 with h | h
          · exact absurd h.symm hne
          · exact h
        have hRab : R a b := (List.pairwise_cons.mp h1).1 b hbt1
        have hRba : R b a := (List.pairwise_cons.mp h2).1 a hat2
        exact hne (hanti a (List.mem_cons_self a t1) b hb1 hRab hRba)
      subst hab
      have hpt : t1.Perm t2 := hp.cons_inv
      have ht12 : t1 = t2 :=
        ih t2
          (fun x hx y hy =>
            hanti x (List.mem_cons_of_mem a hx) y (List.mem_cons_of_mem a hy))
          (List.pairwise_cons.mp h1).2 (List.pairwise_cons.mp h2).2 hpt
      rw [ht12]

/-! ### The canonical listing order -/

theorem cmpListing_nonpos_iff (a b : NormalizedListing) :
    cmpListing a b ≤ 0 ↔ ListingLE a b := by
  unfold cmpListing ListingLE
  rcases eq_or_ne a.score b.score with hs | hs
  · rw [if_neg (by simp [hs])]
    rcases eq_or_ne a.price b.price with hp | hp
    · rw [if_neg (by simp [hp])]
      rcases lt_trichotomy a.source b.source with h | h | h
      · rw [if_pos h]
        exact iff_of_true (by norm_num) (Or.inr ⟨hs, Or.inr ⟨hp, le_of_lt h⟩⟩)
      · rw [if_neg (by simp [h]), if_neg (by simp [h])]
        exact iff_of_true (le_refl 0) (Or.inr ⟨hs, Or.inr ⟨hp, le_of_eq h⟩⟩)
      · rw [if_neg (asymm h), if_pos h]
        refine iff_of_false (by norm_num) ?_
        rintro (hlt | ⟨_, hlt | ⟨_, hle⟩⟩)
        · exact absurd hs hlt.ne'
        · exact absurd hlt (by rw [hp]; exact lt_irrefl _)
        · exact absurd hle (not_le.mpr h)
    · rw [if_pos hp, sub_nonpos]
      constructor
      · intro hle
        exact Or.inr ⟨hs, Or.inl (lt_of_le_of_ne hle hp)⟩
      · rintro (hlt | ⟨_, hlt | ⟨heq, _⟩⟩)
        · exact absurd hs hlt.ne'
        · exact le_of_lt hlt
        · exact absurd heq hp
  · rw [if_pos hs, sub_nonpos]
    constructor
    · intro hle
      exact Or.inl (lt_of_le_of_ne hle hs.symm)
    · rintro (hlt | ⟨heq, _⟩)
      · exact le_of_lt hlt
      · exact absurd heq hs

theorem listingLE_total (a b : NormalizedListing) : ListingLE a b ∨ ListingLE b a := by
  unfold ListingLE
  rcases lt_trichotomy a.score b.score with hs | hs | hs
  · exact Or.inr (Or.inl hs)
  · rcases lt_trichotomy a.price b.price with hp | hp | hp
    · exact Or.inl (Or.inr ⟨hs, Or.inl hp⟩)
    · rcases le_total a.source b.source with hsrc | hsrc
      · exact Or.inl (Or.inr ⟨hs, Or.inr ⟨hp, hsrc⟩⟩)
      · exact Or.inr (Or.inr ⟨hs.symm, Or.inr ⟨hp.symm, hsrc⟩⟩)
    · exact Or.inr (Or.inr ⟨hs.symm, Or.inl hp⟩)
  · exact Or.inl (Or.inl hs)

theorem listingLE_trans {a b c : NormalizedListing} :
    ListingLE a b → ListingLE b c → ListingLE a c := by
  rintro (h1 | ⟨hs1, h1⟩) (h2 | ⟨hs2, h2⟩)
  · exact Or.inl (lt_trans h2 h1)
  · exact Or.inl (hs2 ▸ h1)
  · exact Or.inl (lt_of_lt_of_eq h2 hs1.symm)
  · refine Or.inr ⟨hs1.trans hs2, ?_⟩
    rcases h1 with hp1 | ⟨hpe1, hsrc1⟩ <;> rcases h2 with hp2 | ⟨hpe2, hsrc2⟩
    · exact Or.inl (lt_trans hp1 hp2)
    · exact Or.inl (lt_of_lt_of_eq hp1 hpe2)
    · exact Or.inl (lt_of_eq_of_lt hpe1 hp2)
    · exact Or.inr ⟨hpe1.trans hpe2, le_trans hsrc1 hsrc2⟩

theorem listingLE_antisymm_key {a b : NormalizedListing}
    (h1 : ListingLE a b) (h2 : ListingLE b a) :
    a.score = b.score ∧ a.price = b.price ∧ a.source = b.source := by
  rcases h1 with h1 | ⟨hs1, h1⟩
  · rcases h2 with h2 | ⟨hs2, _⟩
    · exact absurd (lt_trans h1 h2) (lt_irrefl _)
    · exact absurd (hs2 ▸ h1) (lt_irrefl _)
  · rcases h2 with h2 | ⟨_, h2⟩
    · exact absurd (hs1 ▸ h2) (lt_irrefl _)
    · refine ⟨hs1, ?_⟩
      rcases h1 with hp1 | ⟨hpe1, hsrc1⟩
      · rcases h2 with hp2 | ⟨hpe2, _⟩
        · exact absurd (lt_trans hp1 hp2) (lt_irrefl _)
        · exact absurd (hpe2 ▸ hp1) (lt_irrefl _)
      · rcases h2 with hp2 | ⟨_, hsrc2⟩
        · exact absurd (hpe1 ▸ hp2) (lt_irrefl _)
        · exact ⟨hpe1, le_antisymm hsrc1 hsrc2⟩

theorem mergeListings_pairwise (l : List NormalizedListing) :
    (mergeListings l).Pairwise ListingLE := by
  have h := jsSort_pairwise cmpListing
    (fun a b => by
      rcases listingLE_total a b with h | h
      · exact Or.inl ((cmpListing_nonpos_iff a b).mpr h)
      · exact Or.inr ((cmpListing_nonpos_iff b a).mpr h))
    (fun a b c hab hbc =>
      (cmpListing_nonpos_iff a c).mpr
        (listingLE_trans ((cmpListing_nonpos_iff a b).mp hab)
          ((cmpListing_nonpos_iff b c).mp hbc)))
    l
  exact h.imp fun hab => (cmpListing_nonpos_iff _ _).mp hab

theorem mergeListings_perm (l : List NormalizedListing) :
    (mergeListings l).Perm l :=
  jsSort_perm cmpListing l

/-! ### Cache lemmas -/

theorem invalidate_idem (c : Cache) (s : String) :
    invalidate (invalidate c s) s = invalidate c s := by
  induction c with
  | nil => rfl
  | cons e c ih =>
    by_cases h : e.1 = s
    · simp [invalidate, List.filter_cons, h]
    · simp only [invalidate, List.filter_cons] at ih ⊢
      rw [if_pos (by simp [h]), List.filter_cons, if_pos (by simp [h]), ih]

theorem lookup_invalidate_none (c : Cache) (s : String) :
    lookupEntry (invalidate c s) s = none := by
  induction c with
  | nil => rfl
  | cons e c ih =>
    by_cases h : e.1 = s
    · rw [invalidate, List.filter_cons, if_neg (by simp [h])]
      exact ih
    · simp only [invalidate, List.filter_cons] at ih ⊢
      rw [if_pos (by simp [h])]
      simp [lookupEntry, List.find?_cons, h]

/-- C8: cache invalidation is idempotent: for every source and cache state,
invalidating twice leaves the cache exactly as invalidating once does, and the
entry for that source is absent in both cases. -/
theorem cache_invalidate_idempotent :
    ∀ (c : Cache) (s : String),
      invalidate (invalidate c s) s = invalidate c s ∧
      lookupEntry (invalidate c s) s = none ∧
      lookupEntry (invalidate (invalidate c s) s) s = none := by
  intro c s
  refine ⟨invalidate_idem c s, lookup_invalidate_none c s, ?_⟩
  rw [invalidate_idem c s]
  exact lookup_invalidate_none c s

/-- C4: with the default configuration, the adaptive cache TTL follows exactly
the four documented tiers with lower boundaries inclusive, and the stored TTL
always lies within the minimum and maximum TTL. -/
theorem adaptiveCache_ttl_tiers :
    ∀ r : ℚ,
      (9/10 ≤ r → computeTtl defaultCacheCfg r = 300) ∧
      (7/10 ≤ r → r < 9/10 → computeTtl defaultCacheCfg r = 45) ∧
      (1/2 ≤ r → r < 7/10 → computeTtl defaultCacheCfg r = 30) ∧
      (r < 1/2 → computeTtl defaultCacheCfg r = 10) ∧
      defaultCacheCfg.minTtl ≤ computeTtl defaultCacheCfg r ∧
      computeTtl defaultCacheCfg r ≤ defaultCacheCfg.maxTtl := by
  intro r
  refine ⟨?_, ?_, ?_, ?_, ?_, ?_⟩
  · intro h
    unfold computeTtl
    rw [if_pos h]
    rfl
  · intro h1 h2
    unfold computeTtl
    rw [if_neg (not_le.mpr h2), if_pos h1]
  · intro h1 h2
    unfold computeTtl
    rw [if_neg (not_le.mpr (lt_trans h2 (by norm_num))), if_neg (not_le.mpr h2),
      if_pos h1]
  · intro h
    unfold computeTtl
    rw [if_neg (not_le.mpr (lt_trans h (by norm_num))),
      if_neg (not_le.mpr (lt_trans h (by norm_num))), if_neg (not_le.mpr h)]
    rfl
  · unfold computeTtl defaultCacheCfg
    split_ifs <;> norm_num
  · unfold computeTtl defaultCacheCfg
    split_ifs <;> norm_num

/-- C4 witness: the three documented sample rates resolve to the documented
tiers. -/
theorem adaptiveCache_c4_witness :
    computeTtl defaultCacheCfg (95/100) = 300 ∧
    computeTtl defaultCacheCfg (6/10) = 30 ∧
    computeTtl defaultCacheCfg (3/10) = 10 :=
  ⟨(adaptiveCache_ttl_tiers (95/100)).1 (by norm_num),
   (adaptiveCache_ttl_tiers (6/10)).2.2.1 (by norm_num) (by norm_num),
   (adaptiveCache_ttl_tiers (3/10)).2.2.2.1 (by norm_num)⟩

/-- C6: the marketplace normalization is deterministic: the score fields of a
transformed record are a pure function of the raw record's attributes, with no
dependence on the random draw that feeds the favorites field. -/
theorem normalization_deterministic :
    ∀ (g : BackendGPU) (f1 f2 : ℕ),
      (transformGPU g f1).performance = (transformGPU g f2).performance ∧
      (transformGPU g f1).providerScore = (transformGPU g f2).providerScore ∧
      (transformGPU g f1).performance = jsRound g.uptime_percent ∧
      (transformGPU g f1).providerScore = toFixedTenths (g.uptime_percent / 20) := by
  intro g f1 f2
  exact ⟨rfl, rfl, rfl, rfl⟩

theorem mem_mapTransform {rand : ℕ → ℕ} {l : MarketGPU} :
    ∀ (gs : List BackendGPU) (i : ℕ), l ∈ mapTransform rand i gs →
      ∃ g ∈ gs, ∃ j, l = transformGPU g (rand j) := by
  intro gs
  induction gs with
  | nil =>
    intro i h
    simp [mapTransform] at h
  | cons g gs ih =>
    intro i h
    rcases List.mem_cons.mp h with h1 | h2
    · exact ⟨g, List.mem_cons_self g gs, i, h1⟩
    · obtain ⟨g2, hg2, j, hj⟩ := ih (i + 1) h2
      exact ⟨g2, List.mem_cons_of_mem g hg2, j, hj⟩

/-- C9: the marketplace data loader includes a listing only for records whose
availability field is the string Available, and every included listing has
performance Math.round(uptime_percent) and providerScore equal to
uptime_percent / 20 rendered to one decimal place. -/
theorem availableGPUs_only_available :
    ∀ (gs : List BackendGPU) (rand : ℕ → ℕ) (l : MarketGPU),
      l ∈ availableGPUs rand gs →
      ∃ g ∈ gs, g.availability = "Available" ∧
        l.performance = jsRound g.uptime_percent ∧
        l.providerScore = toFixedTenths (g.uptime_percent / 20) := by
  intro gs rand l hmem
  obtain ⟨g, hg, j, hj⟩ :=
    mem_mapTransform (gs.filter fun g => g.availability == "Available") 0 hmem
  rcases List.mem_filter.mp hg with ⟨hgs, havail⟩
  refine ⟨g, hgs, by simpa using havail, ?_, ?_⟩
  · rw [hj]
    rfl
  · rw [hj]
    rfl

/-- C9 witness: with one available and one rented record, the transformed
available record is in the output and carries the documented fields. -/
theorem availableGPUs_c9_witness :
    ∃ g ∈ [(⟨1, "RTX 4090", "vast", 2, "Available", 24, 99, "us"⟩ : BackendGPU),
           ⟨2, "A100", "akash", 3, "Rented", 80, 97, "eu"⟩],
      g.availability = "Available" ∧
      (transformGPU ⟨1, "RTX 4090", "vast", 2, "Available", 24, 99, "us"⟩ 0).performance =
        jsRound g.uptime_percent ∧
      (transformGPU ⟨1, "RTX 4090", "vast", 2, "Available", 24, 99, "us"⟩ 0).providerScore =
        toFixedTenths (g.uptime_percent / 20) :=
  availableGPUs_only_available
    [⟨1, "RTX 4090", "vast", 2, "Available", 24, 99, "us"⟩,
     ⟨2, "A100", "akash", 3, "Rented", 80, 97, "eu"⟩]
    (fun _ => 0)
    (transformGPU ⟨1, "RTX 4090", "vast", 2, "Available", 24, 99, "us"⟩ 0)
    (by simp [availableGPUs, mapTransform, List.filter_cons])

/-- C5: the canonical merged collection is sorted in descending score order
with ties broken by lowest price and then by source name, it is a permutation
of its input, and for a fixed set of listings (no two sharing score, price and
source) the merged order does not depend on the arrival order. -/
theorem mergedListings_sorted_deterministic :
    ∀ l : List NormalizedListing,
      (mergeListings l).Pairwise ListingLE ∧
      (mergeListings l).Perm l ∧
      ∀ l2 : List NormalizedListing,
        (∀ a ∈ l, ∀ b ∈ l,
            a.score = b.score → a.price = b.price → a.source = b.source → a = b) →
        l.Perm l2 → mergeListings l = mergeListings l2 := by
  intro l
  refine ⟨mergeListings_pairwise l, mergeListings_perm l, ?_⟩
  intro l2 hinj hperm
  refine sorted_perm_unique (mergeListings l) (mergeListings l2) ?_
    (mergeListings_pairwise l) (mergeListings_pairwise l2) ?_
  · intro a ha b hb hab hba
    obtain ⟨h1, h2, h3⟩ := listingLE_antisymm_key hab hba
    exact hinj a ((mergeListings_perm l).mem_iff.mp ha)
      b ((mergeListings_perm l).mem_iff.mp hb) h1 h2 h3
  · exact (mergeListings_perm l).trans (hperm.trans (mergeListings_perm l2).symm)

/-- C5 witness: merging two concrete listings is invariant under swapping
their arrival order. -/
theorem mergedListings_c5_witness :
    mergeListings
        [(⟨"A", "m1", 24, 1, "us", 99, 90⟩ : NormalizedListing),
         ⟨"B", "m2", 16, 2, "eu", 95, 80⟩] =
      mergeListings
        [(⟨"B", "m2", 16, 2, "eu", 95, 80⟩ : NormalizedListing),
         ⟨"A", "m1", 24, 1, "us", 99, 90⟩] :=
  (mergedListings_sorted_deterministic
      [⟨"A", "m1", 24, 1, "us", 99, 90⟩, ⟨"B", "m2", 16, 2, "eu", 95, 80⟩]).2.2
    [⟨"B", "m2", 16, 2, "eu", 95, 80⟩, ⟨"A", "m1", 24, 1, "us", 99, 90⟩]
    (by decide) (by decide)

theorem length_filter_not_add (p : α → Bool) (l : List α) :
    (l.filter p).length + (l.filter fun a => !p a).length = l.length := by
  induction l with
  | nil => rfl
  | cons x xs ih =>
    cases h : p x <;> simp [List.filter_cons, h] <;> omega

/-- C2: syncAll records each adapter's outcome independently, raises only when
no sources are registered, and otherwise returns a summary whose success and
failure counts match the per-source outcomes and whose merged collection holds
exactly the normalized records of the adapters that succeeded. -/
theorem syncAll_isolates_failures :
    ∀ adapters : List (String × Except SourceError (List NormalizedListing)),
      (syncAll adapters = .error .noSourcesRegistered ↔ adapters = []) ∧
      (adapters ≠ [] →
        ∃ s, syncAll adapters = .ok s ∧
          s.sourcesSucceeded = (adapters.filter fun p => p.2.toBool).length ∧
          s.sourcesFailed = (adapters.filter fun p => !p.2.toBool).length ∧
          s.sourcesSucceeded + s.sourcesFailed = adapters.length ∧
          s.listings.Perm (successListings adapters)) := by
  intro adapters
  constructor
  · constructor
    · intro h
      by_contra hne
      have hfalse : adapters.isEmpty = false := by
        cases adapters with
        | nil => exact absurd rfl hne
        | cons a l => rfl
      simp [syncAll, hfalse] at h
    · rintro rfl
      rfl
  · intro hne
    have hfalse : adapters.isEmpty = false := by
      cases adapters with
      | nil => exact absurd rfl hne
      | cons a l => rfl
    refine ⟨{ sourcesSucceeded := (adapters.filter fun p => p.2.toBool).length
              sourcesFailed := (adapters.filter fun p => !p.2.toBool).length
              outcomes := adapters.map fun p => (p.1, p.2.toBool)
              listings := mergeListings (successListings adapters)
              totalListings := (mergeListings (successListings adapters)).length },
      ?_, rfl, rfl, ?_, mergeListings_perm _⟩
    · simp [syncAll, hfalse]
    · exact length_filter_not_add _ adapters

/-- C2 witness: the spec's test vector, sources A ok, B timeout, C ok, D auth
error, yields two successes, two failures, and the merged collection is a
permutation of the records of A and C alone. -/
theorem syncAll_c2_witness :
    ∃ s, syncAll
        [("A", .ok [(⟨"A", "m1", 24, 1, "us", 99, 90⟩ : NormalizedListing)]),
         ("B", .error .transientNetwork),
         ("C", .ok [⟨"C", "m2", 16, 2, "eu", 95, 80⟩]),
         ("D", .error .upstreamAuth)] = .ok s ∧
      s.sourcesSucceeded = 2 ∧ s.sourcesFailed = 2 ∧
      s.listings.Perm
        [(⟨"A", "m1", 24, 1, "us", 99, 90⟩ : NormalizedListing),
         ⟨"C", "m2", 16, 2, "eu", 95, 80⟩] := by
  obtain ⟨s, hs, h1, h2, _, h4⟩ :=
    (syncAll_isolates_failures
      [("A", .ok [⟨"A", "m1", 24, 1, "us", 99, 90⟩]),
       ("B", .error .transientNetwork),
       ("C", .ok [⟨"C", "m2", 16, 2, "eu", 95, 80⟩]),
       ("D", .error .upstreamAuth)]).2 (List.cons_ne_nil _ _)
  refine ⟨s, hs, ?_, ?_, ?_⟩
  · rw [h1]
    rfl
  · rw [h2]
    rfl
  · exact h4

/-! ### SmartGPUFinder lemmas -/

theorem finderCmp_other (sortBy : String) (h1 : sortBy ≠ "price-low")
    (h2 : sortBy ≠ "price-high") (h3 : sortBy ≠ "vram") (a b : FinderGPU) :
    finderCmp sortBy a b = 0 := by
  unfold finderCmp
  rw [if_neg h1, if_neg h2, if_neg h3]

theorem finderCmp_priceLow_nonpos_iff (a b : FinderGPU) :
    finderCmp "price-low" a b ≤ 0 ↔ a.price_per_hour ≤ b.price_per_hour := by
  unfold finderCmp
  rw [if_pos rfl, sub_nonpos]

/-- C10: SmartGPUFinder leaves its gpus prop untouched (it sorts a spread
copy of the filtered list); the displayed list is a permutation of the
filtered list; with sortBy recommended the comparator is constantly zero so
the filtered order is preserved; and with sortBy price-low the displayed list
is ascending in price_per_hour. -/
theorem finder_frame_and_sort :
    ∀ (gpus : List FinderGPU) (q sb : String),
      (renderFinder gpus q sb).2 = gpus ∧
      (sortedGPUs gpus q sb).Perm (filteredGPUs gpus q) ∧
      (sb = "recommended" → sortedGPUs gpus q sb = filteredGPUs gpus q) ∧
      (sb = "price-low" →
        (sortedGPUs gpus q sb).Pairwise
          fun a b => a.price_per_hour ≤ b.price_per_hour) := by
  intro gpus q sb
  refine ⟨rfl, jsSort_perm _ _, ?_, ?_⟩
  · rintro rfl
    exact jsSort_all_le _
      (fun a b => le_of_eq (finderCmp_other "recommended"
        (by decide) (by decide) (by decide) a b))
      (filteredGPUs gpus q)
  · rintro rfl
    have h := jsSort_pairwise (finderCmp "price-low")
      (fun a b => by
        rw [finderCmp_priceLow_nonpos_iff, finderCmp_priceLow_nonpos_iff]
        exact le_total _ _)
      (fun a b c hab hbc => by
        rw [finderCmp_priceLow_nonpos_iff] at hab hbc ⊢
        exact le_trans hab hbc)
      (filteredGPUs gpus q)
    exact h.imp fun hab => (finderCmp_priceLow_nonpos_iff _ _).mp hab

/-- C10 witness: a concrete two-element list rendered with price-low sorting
comes out ascending in price. -/
theorem finder_c10_witness :
    (sortedGPUs
        [(⟨1, "RTX 4090", "vast", 2, 24, true⟩ : FinderGPU),
         ⟨2, "A100", "akash", 1, 80, true⟩]
        "" "price-low").Pairwise
      (fun a b => a.price_per_hour ≤ b.price_per_hour) :=
  (finder_frame_and_sort
      [⟨1, "RTX 4090", "vast", 2, 24, true⟩, ⟨2, "A100", "akash", 1, 80, true⟩]
      "" "price-low").2.2.2 rfl

/-! ### Circuit breaker lemmas -/

theorem onSuccess_iter_halfOpen (cfg : BreakerCfg) (now : ℚ) :
    ∀ (k : ℕ) (cf hos : ℕ) (ltt : ℚ) (tc : ℕ),
      hos + k = cfg.halfOpenMaxCalls → 0 < k →
      ((fun x => Breaker.onSuccess cfg x now)^[k]
        ⟨.HALF_OPEN, cf, hos, ltt, tc⟩).state = .CLOSED := by
  intro k
  induction k with
  | zero => intro cf hos ltt tc _ h; exact absurd h (lt_irrefl 0)
  | succ n ih =>
    intro cf hos ltt tc hsum _
    rw [Function.iterate_succ_apply]
    rcases Nat.eq_zero_or_pos n with hn | hn
    · subst hn
      rw [Function.iterate_zero_apply]
      have hle : cfg.halfOpenMaxCalls ≤ hos + 1 := by omega
      simp [Breaker.onSuccess, hle]
    · have hnle : ¬ cfg.halfOpenMaxCalls ≤ hos + 1 := by omega
      have hstep : Breaker.onSuccess cfg ⟨.HALF_OPEN, cf, hos, ltt, tc⟩ now =
          ⟨.HALF_OPEN, cf, hos + 1, ltt, tc⟩ := by
        simp [Breaker.onSuccess, hnle]
      rw [hstep]
      exact ih cf (hos + 1) ltt tc (by omega) hn

/-- C1: the circuit breaker state machine.  From CLOSED, a failure opens the
breaker exactly when the consecutive failure count reaches the threshold and
a success resets the count; while OPEN, a call before the recovery timeout is
rejected with retry_after equal to the remaining timeout, and the first call
after the timeout moves to HALF_OPEN; in HALF_OPEN, half_open_max_calls
consecutive successes close the breaker and a single failure reopens it,
restarting the recovery timer. -/
theorem circuitBreaker_fsm :
    ∀ (cfg : BreakerCfg) (b : Breaker) (now : ℚ),
      (b.state = .CLOSED →
        ((Breaker.onFailure cfg b now).state = .OPEN ↔
          cfg.threshold ≤ b.consecutiveFailures + 1)) ∧
      (b.state = .CLOSED →
        (Breaker.onSuccess cfg b now).state = .CLOSED ∧
        (Breaker.onSuccess cfg b now).consecutiveFailures = 0) ∧
      (b.state = .OPEN → now - b.lastTransitionTime < cfg.recoveryTimeout →
        Breaker.check cfg b now =
          .error ⟨cfg.recoveryTimeout - (now - b.lastTransitionTime)⟩) ∧
      (b.state = .OPEN → cfg.recoveryTimeout ≤ now - b.lastTransitionTime →
        ∃ b2, Breaker.check cfg b now = .ok b2 ∧ b2.state = .HALF_OPEN) ∧
      (b.state = .HALF_OPEN → b.halfOpenSuccesses = 0 → 0 < cfg.halfOpenMaxCalls →
        ((fun x => Breaker.onSuccess cfg x now)^[cfg.halfOpenMaxCalls] b).state
          = .CLOSED) ∧
      (b.state = .HALF_OPEN →
        (Breaker.onFailure cfg b now).state = .OPEN ∧
        (Breaker.onFailure cfg b now).lastTransitionTime = now) := by
  intro cfg b now
  rcases b with ⟨st, cf, hos, ltt, tc⟩
  cases st with
  | CLOSED =>
    refine ⟨?_, ?_, ?_, ?_, ?_, ?_⟩
    · intro _
      constructor
      · intro h
        by_contra hc
        simp [Breaker.onFailure, hc] at h
      · intro h
        simp [Breaker.onFailure, h]
    · intro _
      exact ⟨by simp [Breaker.onSuccess], by simp [Breaker.onSuccess]⟩
    · intro h; exact BreakerState.noConfusion h
    · intro h; exact BreakerState.noConfusion h
    · intro h; exact BreakerState.noConfusion h
    · intro h; exact BreakerState.noConfusion h
  | OPEN =>
    refine ⟨?_, ?_, ?_, ?_, ?_, ?_⟩
    · intro h; exact BreakerState.noConfusion h
    · intro h; exact BreakerState.noConfusion h
    · intro _ hlt
      simp [Breaker.check, not_le.mpr hlt]
    · intro _ hle
      exact ⟨⟨.HALF_OPEN, cf, 0, now, tc⟩, by simp [Breaker.check, hle], rfl⟩
    · intro h; exact BreakerState.noConfusion h
    · intro h; exact BreakerState.noConfusion h
  | HALF_OPEN =>
    refine ⟨?_, ?_, ?_, ?_, ?_, ?_⟩
    · intro h; exact BreakerState.noConfusion h
    · intro h; exact BreakerState.noConfusion h
    · intro h; exact BreakerState.noConfusion h
    · intro h; exact BreakerState.noConfusion h
    · intro _ h0 hpos
      have h0' : hos = 0 := h0
      subst h0'
      exact onSuccess_iter_halfOpen cfg now cfg.halfOpenMaxCalls cf 0 ltt tc
        (by omega) hpos
    · intro _
      exact ⟨by simp [Breaker.onFailure], by simp [Breaker.onFailure]⟩

/-- C1 witness: with the default configuration, a fifth consecutive failure
opens the breaker, a success in CLOSED resets the count, an OPEN-state call at
30s is rejected while one at 61s reaches HALF_OPEN, three half-open successes
close the breaker, and a half-open failure restarts the recovery timer. -/
theorem circuitBreaker_c1_witness :
    (Breaker.onFailure defaultBreakerCfg ⟨.CLOSED, 4, 0, 0, 0⟩ 1).state = .OPEN ∧
    (Breaker.onSuccess defaultBreakerCfg ⟨.CLOSED, 3, 0, 0, 0⟩ 1).consecutiveFailures
      = 0 ∧
    Breaker.check defaultBreakerCfg ⟨.OPEN, 5, 0, 0, 1⟩ 30 =
      .error ⟨defaultBreakerCfg.recoveryTimeout - (30 - (0:ℚ))⟩ ∧
    (∃ b2, Breaker.check defaultBreakerCfg ⟨.OPEN, 5, 0, 0, 1⟩ 61 = .ok b2 ∧
      b2.state = .HALF_OPEN) ∧
    ((fun x => Breaker.onSuccess defaultBreakerCfg x 2)^[defaultBreakerCfg.halfOpenMaxCalls]
        ⟨.HALF_OPEN, 0, 0, 1, 1⟩).state = .CLOSED ∧
    (Breaker.onFailure defaultBreakerCfg ⟨.HALF_OPEN, 0, 1, 1, 1⟩ 9).lastTransitionTime
      = 9 := by
  refine ⟨?_, ?_, ?_, ?_, ?_, ?_⟩
  · exact ((circuitBreaker_fsm defaultBreakerCfg ⟨.CLOSED, 4, 0, 0, 0⟩ 1).1 rfl).mpr
      (by decide)
  · exact ((circuitBreaker_fsm defaultBreakerCfg ⟨.CLOSED, 3, 0, 0, 0⟩ 1).2.1 rfl).2
  · exact (circuitBreaker_fsm defaultBreakerCfg ⟨.OPEN, 5, 0, 0, 1⟩ 30).2.2.1 rfl
      (by norm_num [defaultBreakerCfg])
  · exact (circuitBreaker_fsm defaultBreakerCfg ⟨.OPEN, 5, 0, 0, 1⟩ 61).2.2.2.1 rfl
      (by norm_num [defaultBreakerCfg])
  · exact (circuitBreaker_fsm defaultBreakerCfg ⟨.HALF_OPEN, 0, 0, 1, 1⟩ 2).2.2.2.2.1
      rfl rfl (by decide)
  · exact ((circuitBreaker_fsm defaultBreakerCfg ⟨.HALF_OPEN, 0, 1, 1, 1⟩ 9).2.2.2.2.2
      rfl).2

/-! ### Rate limiter lemmas -/

theorem acquire_bucket_inv (cfg : BucketCfg) (b : Bucket) (now n : ℚ)
    (hcap : 0 ≤ cfg.capacity) (hrate : 0 ≤ cfg.refillRate)
    (ht : b.lastRefillTime ≤ now) (hn : 0 ≤ n)
    (h0 : 0 ≤ b.availableTokens) (_h1 : b.availableTokens ≤ cfg.capacity) :
    0 ≤ ((b.acquire cfg now n).bucket).availableTokens ∧
    ((b.acquire cfg now n).bucket).availableTokens ≤ cfg.capacity ∧
    ((b.acquire cfg now n).bucket).lastRefillTime = now := by
  have hX0 : 0 ≤ b.availableTokens + (now - b.lastRefillTime) * cfg.refillRate :=
    add_nonneg h0 (mul_nonneg (sub_nonneg.mpr ht) hrate)
  unfold Bucket.acquire Bucket.refill
  dsimp only
  by_cases h : n ≤ min cfg.capacity
      (b.availableTokens + (now - b.lastRefillTime) * cfg.refillRate)
  · rw [if_pos h]
    dsimp only [AcquireResult.bucket]
    refine ⟨sub_nonneg.mpr h, ?_, rfl⟩
    calc min cfg.capacity
          (b.availableTokens + (now - b.lastRefillTime) * cfg.refillRate) - n
        ≤ min cfg.capacity
          (b.availableTokens + (now - b.lastRefillTime) * cfg.refillRate) :=
          sub_le_self _ hn
      _ ≤ cfg.capacity := min_le_left _ _
  · rw [if_neg h]
    dsimp only [AcquireResult.bucket]
    exact ⟨le_min hcap hX0, min_le_left _ _, rfl⟩

theorem runAcquires_inv (cfg : BucketCfg) (hcap : 0 ≤ cfg.capacity)
    (hrate : 0 ≤ cfg.refillRate) :
    ∀ (ops : List (ℚ × ℚ)) (b : Bucket), ValidOps b.lastRefillTime ops →
      0 ≤ b.availableTokens → b.availableTokens ≤ cfg.capacity →
      0 ≤ (runAcquires cfg b ops).availableTokens ∧
        (runAcquires cfg b ops).availableTokens ≤ cfg.capacity := by
  intro ops
  induction ops with
  | nil => intro b _ h0 h1; exact ⟨h0, h1⟩
  | cons op ops ih =>
    rcases op with ⟨now, n⟩
    intro b hv h0 h1
    cases hv with
    | cons htle hn hv2 =>
      obtain ⟨g0, g1, glast⟩ :=
        acquire_bucket_inv cfg b now n hcap hrate htle hn h0 h1
      rw [runAcquires]
      exact ih _ (by rw [glast]; exact hv2) g0 g1

theorem refill_saturates (cfg : BucketCfg) (b : Bucket) (now : ℚ)
    (h0 : 0 ≤ b.availableTokens) (hrate : 0 < cfg.refillRate)
    (hidle : cfg.capacity / cfg.refillRate ≤ now - b.lastRefillTime) :
    (b.refill cfg now).availableTokens = cfg.capacity := by
  unfold Bucket.refill
  have hcaple : cfg.capacity ≤ (now - b.lastRefillTime) * cfg.refillRate := by
    rw [← div_le_iff₀ hrate]
    exact hidle
  exact min_eq_left (le_trans hcaple (le_add_of_nonneg_left h0))

/-- C3: token counts stay within [0, capacity] along every well-formed
operation sequence; after an idle period of at least capacity/refill_rate the
refill saturates at exactly the capacity; and with capacity 10 and rate 1
token per second, ten immediate acquire(1) calls succeed while the eleventh
would block for one second. -/
theorem rateLimiter_bounds :
    (∀ (cfg : BucketCfg) (ops : List (ℚ × ℚ)) (b : Bucket),
        0 ≤ cfg.capacity → 0 ≤ cfg.refillRate → ValidOps b.lastRefillTime ops →
        0 ≤ b.availableTokens → b.availableTokens ≤ cfg.capacity →
        0 ≤ (runAcquires cfg b ops).availableTokens ∧
          (runAcquires cfg b ops).availableTokens ≤ cfg.capacity) ∧
    (∀ (cfg : BucketCfg) (b : Bucket) (now : ℚ),
        0 ≤ b.availableTokens → 0 < cfg.refillRate →
        cfg.capacity / cfg.refillRate ≤ now - b.lastRefillTime →
        (b.refill cfg now).availableTokens = cfg.capacity) ∧
    allAcquired ⟨10, 1⟩ ⟨10, 0⟩
      [(0,1),(0,1),(0,1),(0,1),(0,1),(0,1),(0,1),(0,1),(0,1),(0,1)] = true ∧
    Bucket.acquire ⟨10, 1⟩
        (runAcquires ⟨10, 1⟩ ⟨10, 0⟩
          [(0,1),(0,1),(0,1),(0,1),(0,1),(0,1),(0,1),(0,1),(0,1),(0,1)]) 0 1 =
      .wouldBlock 1 ⟨0, 0⟩ := by
  have s10 : Bucket.acquire ⟨10, 1⟩ ⟨10, 0⟩ 0 1 = .acquired ⟨9, 0⟩ := by
    norm_num [Bucket.acquire, Bucket.refill]
  have s9 : Bucket.acquire ⟨10, 1⟩ ⟨9, 0⟩ 0 1 = .acquired ⟨8, 0⟩ := by
    norm_num [Bucket.acquire, Bucket.refill]
  have s8 : Bucket.acquire ⟨10, 1⟩ ⟨8, 0⟩ 0 1 = .acquired ⟨7, 0⟩ := by
    norm_num [Bucket.acquire, Bucket.refill]
  have s7 : Bucket.acquire ⟨10, 1⟩ ⟨7, 0⟩ 0 1 = .acquired ⟨6, 0⟩ := by
    norm_num [Bucket.acquire, Bucket.refill]
  have s6 : Bucket.acquire ⟨10, 1⟩ ⟨6, 0⟩ 0 1 = .acquired ⟨5, 0⟩ := by
    norm_num [Bucket.acquire, Bucket.refill]
  have s5 : Bucket.acquire ⟨10, 1⟩ ⟨5, 0⟩ 0 1 = .acquired ⟨4, 0⟩ := by
    norm_num [Bucket.acquire, Bucket.refill]
  have s4 : Bucket.acquire ⟨10, 1⟩ ⟨4, 0⟩ 0 1 = .acquired ⟨3, 0⟩ := by
    norm_num [Bucket.acquire, Bucket.refill]
  have s3 : Bucket.acquire ⟨10, 1⟩ ⟨3, 0⟩ 0 1 = .acquired ⟨2, 0⟩ := by
    norm_num [Bucket.acquire, Bucket.refill]
  have s2 : Bucket.acquire ⟨10, 1⟩ ⟨2, 0⟩ 0 1 = .acquired ⟨1, 0⟩ := by
    norm_num [Bucket.acquire, Bucket.refill]
  have s1 : Bucket.acquire ⟨10, 1⟩ ⟨1, 0⟩ 0 1 = .acquired ⟨0, 0⟩ := by
    norm_num [Bucket.acquire, Bucket.refill]
  have s0 : Bucket.acquire ⟨10, 1⟩ ⟨0, 0⟩ 0 1 = .wouldBlock 1 ⟨0, 0⟩ := by
    norm_num [Bucket.acquire, Bucket.refill]
  refine ⟨?_, ?_, ?_, ?_⟩
  · intro cfg ops b h1 h2 hv h3 h4
    exact runAcquires_inv cfg h1 h2 ops b hv h3 h4
  · intro cfg b now h0 hr hi
    exact refill_saturates cfg b now h0 hr hi
  · simp only [allAcquired, AcquireResult.isOk, AcquireResult.bucket,
      s10, s9, s8, s7, s6, s5, s4, s3, s2, s1, Bool.true_and]
  · simp only [runAcquires, AcquireResult.bucket,
      s10, s9, s8, s7, s6, s5, s4, s3, s2, s1]
    exact s0

/-- C3 witness: one acquire on a full default bucket keeps the count within
bounds, and a 10-second idle refill on a partial bucket saturates at exactly
the capacity. -/
theorem rateLimiter_c3_witness :
    (0 ≤ (runAcquires ⟨10, 1⟩ ⟨10, 0⟩ [(0, 1)]).availableTokens ∧
      (runAcquires ⟨10, 1⟩ ⟨10, 0⟩ [(0, 1)]).availableTokens ≤ (10:ℚ)) ∧
    (Bucket.refill ⟨10, 1⟩ ⟨3, 0⟩ 10).availableTokens = (10:ℚ) := by
  constructor
  · exact rateLimiter_bounds.1 ⟨10, 1⟩ [(0, 1)] ⟨10, 0⟩ (by norm_num) (by norm_num)
      (ValidOps.cons (le_refl 0) (by norm_num) (ValidOps.nil 0))
      (by norm_num) (by norm_num)
  · exact rateLimiter_bounds.2.1 ⟨10, 1⟩ ⟨3, 0⟩ 10 (by norm_num) (by norm_num)
      (by norm_num)

/-! ### Retry controller lemmas -/

theorem runRetry_ok (att : ℕ → AttemptOutcome) (k r v : ℕ) (h : att k = .ok v) :
    runRetry att k r = .ok v := by
  unfold runRetry
  rw [h]

theorem runRetry_err_tripped (att : ℕ → AttemptOutcome) (k r : ℕ)
    (e : SourceError) (h : att k = .err e true) :
    runRetry att k r = .error e := by
  unfold runRetry
  rw [h]
  rfl

theorem runRetry_err_zero (att : ℕ → AttemptOutcome) (k : ℕ) (e : SourceError)
    (h : att k = .err e false) :
    runRetry att k 0 = .error e := by
  unfold runRetry
  rw [h]
  rfl

theorem runRetry_err_succ (att : ℕ → AttemptOutcome) (k r : ℕ) (e : SourceError)
    (h : att k = .err e false) :
    runRetry att k (r + 1) = runRetry att (k + 1) r := by
  conv_lhs => rw [runRetry]
  rw [h]
  rfl

theorem runRetry_congr (att att2 : ℕ → AttemptOutcome) :
    ∀ (r k : ℕ), (∀ i, k ≤ i → i ≤ k + r → att i = att2 i) →
      runRetry att k r = runRetry att2 k r := by
  intro r
  induction r with
  | zero =>
    intro k h
    have hk : att2 k = att k := (h k le_rfl (Nat.le_add_right k 0)).symm
    cases hak : att k with
    | ok v => rw [runRetry_ok att k 0 v hak, runRetry_ok att2 k 0 v (hk.trans hak)]
    | err e tripped =>
      cases tripped with
      | true =>
        rw [runRetry_err_tripped att k 0 e hak,
          runRetry_err_tripped att2 k 0 e (hk.trans hak)]
      | false =>
        rw [runRetry_err_zero att k e hak, runRetry_err_zero att2 k e (hk.trans hak)]
  | succ n ih =>
    intro k h
    have hk : att2 k = att k := (h k le_rfl (Nat.le_add_right k (n + 1))).symm
    cases hak : att k with
    | ok v =>
      rw [runRetry_ok att k (n + 1) v hak, runRetry_ok att2 k (n + 1) v (hk.trans hak)]
    | err e tripped =>
      cases tripped with
      | true =>
        rw [runRetry_err_tripped att k (n + 1) e hak,
          runRetry_err_tripped att2 k (n + 1) e (hk.trans hak)]
      | false =>
        rw [runRetry_err_succ att k n e hak,
          runRetry_err_succ att2 k n e (hk.trans hak)]
        exact ih (k + 1) fun i h1 h2 => h i (Nat.le_of_succ_le h1) (by omega)

theorem runRetry_all_fail (att : ℕ → AttemptOutcome) (e : ℕ → SourceError)
    (hall : ∀ i, att i = .err (e i) false) :
    ∀ (r k : ℕ), runRetry att k r = .error (e (k + r)) := by
  intro r
  induction r with
  | zero =>
    intro k
    rw [runRetry_err_zero att k (e k) (hall k), Nat.add_zero]
  | succ n ih =>
    intro k
    rw [runRetry_err_succ att k n (e k) (hall k), ih (k + 1)]
    have : k + 1 + n = k + (n + 1) := by omega
    rw [this]

/-- C7: the retry controller retries at most max_retries times (the result
depends only on attempts 0..max_retries), stops at once when the breaker just
tripped, surfaces the final attempt error when retries are exhausted, and the
delay before retry number attempt is min(base_delay x 2^attempt, max_delay)
plus a jitter bounded by jitter_max, with the default delays 2, 4, 8, 16, 32
seconds capped at 32. -/
theorem retryController_policy :
    (∀ (cfg : RetryCfg) (a : ℕ) (j : ℚ), 0 ≤ j → j ≤ cfg.jitterMax →
        retryDelay cfg a j = min (cfg.baseDelay * 2 ^ a) cfg.maxDelay + j ∧
        min (cfg.baseDelay * 2 ^ a) cfg.maxDelay ≤ retryDelay cfg a j ∧
        retryDelay cfg a j ≤ min (cfg.baseDelay * 2 ^ a) cfg.maxDelay + cfg.jitterMax) ∧
    (∀ (cfg : RetryCfg) (att att2 : ℕ → AttemptOutcome),
        (∀ i, i ≤ cfg.maxRetries → att i = att2 i) →
        adapterFetch cfg att = adapterFetch cfg att2) ∧
    (∀ (cfg : RetryCfg) (att : ℕ → AttemptOutcome) (e : ℕ → SourceError),
        (∀ i, att i = .err (e i) false) →
        adapterFetch cfg att = .error (e cfg.maxRetries)) ∧
    (∀ (cfg : RetryCfg) (att : ℕ → AttemptOutcome) (e : SourceError),
        att 0 = .err e true → adapterFetch cfg att = .error e) ∧
    (retryDelay defaultRetryCfg 0 0 = 2 ∧ retryDelay defaultRetryCfg 1 0 = 4 ∧
     retryDelay defaultRetryCfg 2 0 = 8 ∧ retryDelay defaultRetryCfg 3 0 = 16 ∧
     retryDelay defaultRetryCfg 4 0 = 32 ∧ retryDelay defaultRetryCfg 5 0 = 32) := by
  refine ⟨?_, ?_, ?_, ?_, ?_⟩
  · intro cfg a j hj0 hjm
    exact ⟨rfl, le_add_of_nonneg_right hj0, add_le_add_left hjm _⟩
  · intro cfg att att2 h
    unfold adapterFetch
    exact runRetry_congr att att2 cfg.maxRetries 0 fun i h1 h2 => h i (by omega)
  · intro cfg att e hall
    unfold adapterFetch
    have h := runRetry_all_fail att e hall cfg.maxRetries 0
    rw [h, Nat.zero_add]
  · intro cfg att e h
    unfold adapterFetch
    exact runRetry_err_tripped att 0 cfg.maxRetries e h
  · refine ⟨?_, ?_, ?_, ?_, ?_, ?_⟩ <;> norm_num [retryDelay, defaultRetryCfg]

/-- C7 witness: a tripped-breaker failure stops at once, attempts that always
fail surface the final error, and the delay for retry 1 with jitter one half
is 4.5 seconds. -/
theorem retryController_c7_witness :
    adapterFetch defaultRetryCfg (fun _ => .err .upstreamAuth true)
      = .error .upstreamAuth ∧
    adapterFetch defaultRetryCfg (fun _ => .err .transientNetwork false)
      = .error .transientNetwork ∧
    retryDelay defaultRetryCfg 1 (1/2) = 9/2 := by
  refine ⟨?_, ?_, ?_⟩
  · exact retryController_policy.2.2.2.1 defaultRetryCfg _ .upstreamAuth rfl
  · exact retryController_policy.2.2.1 defaultRetryCfg
      (fun _ => .err .transientNetwork false) (fun _ => .transientNetwork)
      (fun i => rfl)
  · have h := (retryController_policy.1 defaultRetryCfg 1 (1/2)
      (by norm_num) (by norm_num [defaultRetryCfg])).1
    rw [h]
    norm_num [defaultRetryCfg]

end GP4U
